import Mathlib

/-!
Verification of the Excel-to-SQLite import engine of `src/app.py`
(function `import_excel_to_db`).

The embedding models the pipeline faithfully:
- a workbook is a named list of sheets; a sheet is a list of column
  headers plus keyed rows (pandas DataFrame access by column name);
- cell values are strings, numbers or null (pandas NaN);
- the SQLite store is a pair of tables `holes` and `assay` with
  autoincrement surrogate ids;
- each stage of the function (the with-scoped read, the file existence
  checks, the second unscoped read, column validation, null validation,
  the merge transaction with rollback/commit) is translated step by
  step, and the resource events (workbook opens/closes, connection
  open/close) are recorded in a trace.
-/

namespace DrillImport

/-- A cell value of a parsed sheet: pandas NaN is `null`. -/
inductive Val where
  | null : Val
  | str : String → Val
  | num : Int → Val
deriving DecidableEq, Repr

/-- A row of a DataFrame, keyed by column name. -/
abbrev RowData := List (String × Val)

/-- `rowVal row c` models the pandas access `row[c]`; a key that is
absent yields `null` (the merge only reads validated columns). -/
def rowVal : RowData → String → Val
  | [], _ => Val.null
  | p :: rest, c => if p.1 = c then p.2 else rowVal rest c

/-- A parsed sheet: the column labels and the data rows. -/
structure Sheet where
  columns : List String
  rows : List RowData
deriving DecidableEq, Repr

/-- An Excel workbook: sheets by name. -/
structure Workbook where
  sheets : List (String × Sheet)
deriving DecidableEq, Repr

/-- Leading and trailing whitespace removal on a character list. -/
def stripChars (l : List Char) : List Char :=
  ((l.dropWhile Char.isWhitespace).reverse.dropWhile Char.isWhitespace).reverse

/-- Python `str.strip()`: trims leading and trailing whitespace. -/
def pyStrip (s : String) : String := ⟨stripChars s.data⟩

/-- Header normalization, `df.rename(columns=lambda c: str(c).strip())`:
trims whitespace from the column labels and the row keys only. -/
def parseSheet (s : Sheet) : Sheet :=
  ⟨s.columns.map pyStrip, s.rows.map (fun row => row.map (fun p => (pyStrip p.1, p.2)))⟩

def sheetNames (w : Workbook) : List String := w.sheets.map (fun p => p.1)

def getSheetAux : List (String × Sheet) → String → Sheet
  | [], _ => ⟨[], []⟩
  | p :: rest, name => if p.1 = name then p.2 else getSheetAux rest name

/-- `xls.parse(name)`: the sheet of that name (only used when present). -/
def getSheet (w : Workbook) (name : String) : Sheet := getSheetAux w.sheets name

/-- `required_sheets = ["Holes", "Assay"]`. -/
def requiredSheets : List String := ["Holes", "Assay"]

/-- The sheets reported missing by the loop over `required_sheets`. -/
def missingSheets (w : Workbook) : List String :=
  requiredSheets.filter (fun s => !(decide (s ∈ sheetNames w)))

/-- Keys of the `holes_cols` dict of the source, in order. -/
def holesCols : List String := ["ИМЯ", "X", "Y", "Z", "ДЛИНА", "ГОРИЗОНТ", "ДАТА ПРОХОДКИ"]

/-- Keys of the `assay_cols` dict of the source, in order. -/
def assayCols : List String := ["ОБЪЕКТ", "ОТ", "ДО", "Au"]

/-- Structured form of the diagnostic strings appended to `errors`;
each constructor carries exactly the data interpolated into the
corresponding message of the source. -/
inductive Diag where
  | readError : Diag
  | missingSheet : String → Diag
  | excelNotFound : String → Diag
  | dbNotFound : String → Diag
  | missingColumn : String → String → Diag
  | nullValues : String → Diag
  | unknownHole : Val → Nat → Diag
  | dbError : Diag
deriving DecidableEq, Repr

/-- Required columns absent from a sheet (`if col not in df.columns`). -/
def missingCols (req : List String) (s : Sheet) : List String :=
  req.filter (fun c => !(decide (c ∈ s.columns)))

/-- The column-presence diagnostics of lines 113-120, both sheets. -/
def columnErrors (holesSheet assaySheet : Sheet) : List Diag :=
  (missingCols holesCols holesSheet).map (fun c => Diag.missingColumn c "Holes")
    ++ (missingCols assayCols assaySheet).map (fun c => Diag.missingColumn c "Assay")

/-- `df[req].isnull().any().any()`: some cell of a required column is null. -/
def sheetHasNull (req : List String) (s : Sheet) : Bool :=
  s.rows.any (fun row => req.any (fun c => decide (rowVal row c = Val.null)))

/-- The null-value diagnostics of lines 122-126: one per sheet. -/
def nullErrors (holesSheet assaySheet : Sheet) : List Diag :=
  (if sheetHasNull holesCols holesSheet then [Diag.nullValues "Holes"] else [])
    ++ (if sheetHasNull assayCols assaySheet then [Diag.nullValues "Assay"] else [])

/-- Lines 113-128: column check, early return, then null check. -/
def validate (holesSheet assaySheet : Sheet) : List Diag :=
  let ce := columnErrors holesSheet assaySheet
  if ce = [] then nullErrors holesSheet assaySheet else ce

/-- A persisted hole record: surrogate id, business name, attributes. -/
structure HoleAttrs where
  x : Val
  y : Val
  z : Val
  lenght : Val
  level : Val
  issue_date : Val
deriving DecidableEq, Repr

structure HoleRow where
  id : Nat
  name : Val
  attrs : HoleAttrs
deriving DecidableEq, Repr

structure AssayRow where
  id : Nat
  hole_id : Nat
  from_val : Val
  to_val : Val
  au_val : Val
deriving DecidableEq, Repr

/-- The SQLite store: tables `holes` and `assay`, with the next
autoincrement rowids. -/
structure DB where
  holes : List HoleRow
  assay : List AssayRow
  nextHoleId : Nat
  nextAssayId : Nat
deriving DecidableEq, Repr

/-- The `hole_name_to_id` dict, in insertion order. -/
abbrev NameMap := List (Val × Nat)

/-- Dict lookup (`hole_name_to_id.get(name)`). -/
def mapLookup : NameMap → Val → Option Nat
  | [], _ => none
  | p :: rest, k => if p.1 = k then some p.2 else mapLookup rest k

def mapKeys (m : NameMap) : List Val := m.map (fun p => p.1)

/-- Python dict assignment `m[k] = v`: overwrite in place if the key is
present, else append in insertion order. -/
def dictInsert (m : NameMap) (k : Val) (v : Nat) : NameMap :=
  if (mapLookup m k).isSome then
    m.map (fun p => if p.1 = k then (p.1, v) else p)
  else m ++ [(k, v)]

/-- Lines 138-141: `SELECT id, name FROM holes` into the dict. -/
def buildMap (holes : List HoleRow) : NameMap :=
  holes.foldl (fun m h => dictInsert m h.name h.id) []

/-- The attribute tuple read from a holes-sheet row (lines 147-152). -/
def holeAttrsOfRow (row : RowData) : HoleAttrs :=
  ⟨rowVal row "X", rowVal row "Y", rowVal row "Z",
    rowVal row "ДЛИНА", rowVal row "ГОРИЗОНТ", rowVal row "ДАТА ПРОХОДКИ"⟩

/-- `UPDATE holes SET x=?,y=?,z=?,lenght=?,_level=?,issue_date=? WHERE id=?`. -/
def updateHole (holes : List HoleRow) (hid : Nat) (a : HoleAttrs) : List HoleRow :=
  holes.map (fun h => if h.id = hid then { h with attrs := a } else h)

/-- Merge-loop state: the store inside the open transaction plus the
`hole_name_to_id` dict. -/
structure MergeSt where
  db : DB
  map : NameMap
deriving DecidableEq, Repr

/-- One iteration of the holes loop (lines 145-168). -/
def processHole (st : MergeSt) (row : RowData) : MergeSt :=
  let name := rowVal row "ИМЯ"
  match mapLookup st.map name with
  | some hid =>
      ⟨{ st.db with holes := updateHole st.db.holes hid (holeAttrsOfRow row) }, st.map⟩
  | none =>
      let hid := st.db.nextHoleId
      ⟨{ st.db with
          holes := st.db.holes ++ [⟨hid, name, holeAttrsOfRow row⟩],
          nextHoleId := hid + 1 },
        st.map ++ [(name, hid)]⟩

/-- The holes loop over the sheet rows in source order. -/
def processHoles (st : MergeSt) (rows : List RowData) : MergeSt :=
  rows.foldl processHole st

/-- `INSERT INTO assay (hole_id, _from, _to, Au) VALUES (?,?,?,?)`. -/
def insertAssay (db : DB) (hid : Nat) (row : RowData) : DB :=
  { db with
      assay := db.assay ++ [⟨db.nextAssayId, hid, rowVal row "ОТ", rowVal row "ДО", rowVal row "Au"⟩],
      nextAssayId := db.nextAssayId + 1 }

/-- One iteration of the assay loop (lines 171-186): an unresolved hole
name appends one diagnostic carrying the name and `idx + 2` and skips
the row; a resolved one inserts immediately. -/
def processAssayRow (m : NameMap) (acc : DB × List Diag) (ir : Nat × RowData) : DB × List Diag :=
  let hole_name := rowVal ir.2 "ОБЪЕКТ"
  match mapLookup m hole_name with
  | none => (acc.1, acc.2 ++ [Diag.unknownHole hole_name (ir.1 + 2)])
  | some hid => (insertAssay acc.1 hid ir.2, acc.2)

/-- The assay loop, rows enumerated by their 0-based DataFrame index. -/
def processAssays (m : NameMap) (db : DB) (rows : List RowData) : DB × List Diag :=
  rows.enum.foldl (processAssayRow m) (db, [])

/-- The diagnostics accumulated during the merge pass. -/
def mergeErrors (db : DB) (holesSheet assaySheet : Sheet) : List Diag :=
  let st := processHoles ⟨db, buildMap db.holes⟩ holesSheet.rows
  (processAssays st.map st.db assaySheet.rows).2

/-- Lines 131-196 inside the transaction: holes pass, assay pass, then
rollback (discarding every write) if any diagnostics, else commit. -/
def mergePhase (db : DB) (holesSheet assaySheet : Sheet) : Bool × List Diag × DB :=
  let st := processHoles ⟨db, buildMap db.holes⟩ holesSheet.rows
  let res := processAssays st.map st.db assaySheet.rows
  if res.2 = [] then (true, [], res.1) else (false, res.2, db)

/-- Resource events of one invocation: the with-scoped `pd.ExcelFile`
open of line 52 and its scope exit, the bare re-open of line 73 (the
source never calls close on it), and the sqlite connection. -/
inductive Ev where
  | openWbScoped : Ev
  | closeWb : Ev
  | openWbBare : Ev
  | openConn : Ev
  | closeConn : Ev
deriving DecidableEq, Repr

/-- The observable outcome of one invocation: the returned pair, the
resulting store content, and the resource-event trace. -/
structure ImportResult where
  success : Bool
  errors : List Diag
  store : Option DB
  trace : List Ev
deriving DecidableEq, Repr

/-- The function `import_excel_to_db(excel_path, db_path)`.  `wb` is the
content of the file at `excel_path` (`none`: unreadable/absent), and
`store` the database at `db_path` (`none`: no such file).  Mirrors the
source line by line: the with-scoped read and sheet check (lines 50-64),
the file-existence checks (67-70), the second, unscoped `pd.ExcelFile`
(73), the sheet re-check and parse (78-93), column and null validation
(113-128), and the transactional merge (131-196). -/
def import_excel_to_db (excel_path db_path : String) (wb : Option Workbook)
    (store : Option DB) : ImportResult :=
  match wb with
  | none => ⟨false, [Diag.readError], store, []⟩
  | some w =>
    if missingSheets w = [] then
      match store with
      | none => ⟨false, [Diag.dbNotFound db_path], none, [Ev.openWbScoped, Ev.closeWb]⟩
      | some db =>
        let holesSheet := parseSheet (getSheet w "Holes")
        let assaySheet := parseSheet (getSheet w "Assay")
        let ve := validate holesSheet assaySheet
        if ve = [] then
          let res := mergePhase db holesSheet assaySheet
          ⟨res.1, res.2.1, some res.2.2,
            [Ev.openWbScoped, Ev.closeWb, Ev.openWbBare, Ev.openConn, Ev.closeConn]⟩
        else
          ⟨false, ve, some db, [Ev.openWbScoped, Ev.closeWb, Ev.openWbBare]⟩
    else
      ⟨false, (missingSheets w).map Diag.missingSheet, store, [Ev.openWbScoped, Ev.closeWb]⟩

/-- First-of-two alternative on `Option` (explicit, to keep proofs about
lookup-in-append and last-occurrence simple). -/
def oalt {α : Type} : Option α → Option α → Option α
  | some a, _ => some a
  | none, b => b

/-- `SELECT ... FROM holes WHERE name = n LIMIT 1`: the first stored row
carrying a given name. -/
def findByName : List HoleRow → Val → Option HoleRow
  | [], _ => none
  | h :: rest, n => if h.name = n then some h else findByName rest n

/-- The attribute values the holes table associates to a name. -/
def attrsOf (db : DB) (n : Val) : Option HoleAttrs :=
  (findByName db.holes n).map (fun h => h.attrs)

/-- The attributes of the last row of a holes sheet carrying a name
(later rows overwrite earlier ones). -/
def lastAttrs : List RowData → Val → Option HoleAttrs
  | [], _ => none
  | row :: rest, n =>
      oalt (lastAttrs rest n)
        (if rowVal row "ИМЯ" = n then some (holeAttrsOfRow row) else none)

/-- The holes pass of the merge alone: load the name→id map from the
store, then run the holes loop (lines 137-168). -/
def mergeHolesOnly (db : DB) (rows : List RowData) : DB :=
  (processHoles ⟨db, buildMap db.holes⟩ rows).db

/-- Invariant of the merge loop: the keys of the `hole_name_to_id` dict
are exactly the names present in the holes table. -/
def KeysNames (st : MergeSt) : Prop :=
  ∀ k, k ∈ mapKeys st.map ↔ k ∈ st.db.holes.map (fun h => h.name)

/-- Well-formedness of the merge-loop state, guaranteed for a real
SQLite store: names are unique (the UNIQUE constraint on `holes.name`),
rowids are unique and below the next autoincrement value, and the dict
loaded by lines 138-141 agrees with the table. -/
structure MergeWF (st : MergeSt) : Prop where
  names_nodup : (st.db.holes.map (fun h => h.name)).Nodup
  ids_nodup : (st.db.holes.map (fun h => h.id)).Nodup
  ids_lt : ∀ h ∈ st.db.holes, h.id < st.db.nextHoleId
  keys_names : KeysNames st
  lookup_sound : ∀ k i, mapLookup st.map k = some i →
    ∃ h ∈ st.db.holes, h.id = i ∧ h.name = k

/-- A holes-sheet row for hole name `nm` (concrete test fixture). -/
def holeRowOf (nm : String) : RowData :=
  [("ИМЯ", Val.str nm), ("X", Val.num 0), ("Y", Val.num 0), ("Z", Val.num 0),
    ("ДЛИНА", Val.num 10), ("ГОРИЗОНТ", Val.num 100), ("ДАТА ПРОХОДКИ", Val.num 20231231)]

/-- A holes-sheet row for hole `nm` with distinct coordinates. -/
def holeRowOf2 (nm : String) : RowData :=
  [("ИМЯ", Val.str nm), ("X", Val.num 7), ("Y", Val.num 8), ("Z", Val.num 9),
    ("ДЛИНА", Val.num 11), ("ГОРИЗОНТ", Val.num 200), ("ДАТА ПРОХОДКИ", Val.num 20240101)]

/-- A holes-sheet row whose Y cell is empty (NaN). -/
def holeRowNull : RowData :=
  [("ИМЯ", Val.str "A"), ("X", Val.num 0), ("Y", Val.null), ("Z", Val.num 0),
    ("ДЛИНА", Val.num 10), ("ГОРИЗОНТ", Val.num 100), ("ДАТА ПРОХОДКИ", Val.num 20231231)]

/-- An assay-sheet row referencing hole `nm`. -/
def assayRowOf (nm : String) : RowData :=
  [("ОБЪЕКТ", Val.str nm), ("ОТ", Val.num 0), ("ДО", Val.num 1), ("Au", Val.num 1)]

/-- An assay-sheet row with a null grade cell. -/
def assayRowNull : RowData :=
  [("ОБЪЕКТ", Val.str "A"), ("ОТ", Val.num 0), ("ДО", Val.num 1), ("Au", Val.null)]

/-- Workbook whose assay row references a hole present in the sheet. -/
def wbGood : Workbook :=
  ⟨[("Holes", ⟨holesCols, [holeRowOf "A"]⟩), ("Assay", ⟨assayCols, [assayRowOf "A"]⟩)]⟩

/-- Workbook whose assay row references hole B, absent from the holes
sheet and from the store. -/
def wbBad : Workbook :=
  ⟨[("Holes", ⟨holesCols, [holeRowOf "A"]⟩), ("Assay", ⟨assayCols, [assayRowOf "B"]⟩)]⟩

/-- Workbook that lacks the Assay sheet. -/
def wbNoAssay : Workbook := ⟨[("Holes", ⟨holesCols, [holeRowOf "A"]⟩)]⟩

/-- A provisioned but empty store. -/
def dbEmpty : DB := ⟨[], [], 1, 1⟩

/-- Holes sheet lacking required column X. -/
def holesSheetNoX : Sheet :=
  ⟨["ИМЯ", "Y", "Z", "ДЛИНА", "ГОРИЗОНТ", "ДАТА ПРОХОДКИ"], []⟩

/-- Assay sheet lacking required column Au. -/
def assaySheetNoAu : Sheet := ⟨["ОБЪЕКТ", "ОТ", "ДО"], []⟩

/-- Holes sheet with a null in a required column. -/
def holesSheetNull : Sheet := ⟨holesCols, [holeRowNull]⟩

/-- Assay sheet with a null in a required column. -/
def assaySheetNull : Sheet := ⟨assayCols, [assayRowNull]⟩

/-! ### Lookup lemmas -/

theorem mapLookup_append (m1 m2 : NameMap) (k : Val) :
    mapLookup (m1 ++ m2) k = oalt (mapLookup m1 k) (mapLookup m2 k) := by
  induction m1 with
  | nil => simp [mapLookup, oalt]
  | cons p rest ih =>
      by_cases h : p.1 = k <;> simp [mapLookup, h, ih, oalt]

theorem mergePhase_rollback (db : DB) (holesSheet assaySheet : Sheet)
    (h : mergeErrors db holesSheet assaySheet ≠ []) :
    mergePhase db holesSheet assaySheet
      = (false, mergeErrors db holesSheet assaySheet, db) := by
  unfold mergePhase
  unfold mergeErrors at h ⊢
  rw [if_neg h]

theorem mapLookup_isSome_iff (m : NameMap) (k : Val) :
    (mapLookup m k).isSome = true ↔ k ∈ mapKeys m := by
  induction m with
  | nil => simp [mapLookup, mapKeys]
  | cons p rest ih =>
      by_cases h : p.1 = k
      · simp [mapLookup, mapKeys, h]
      · have h2 : ¬ k = p.1 := fun hh => h hh.symm
        simp [mapLookup, mapKeys, h, h2, ih]

theorem mapKeys_overwrite (m : NameMap) (k : Val) (v : Nat) :
    mapKeys (m.map (fun p => if p.1 = k then (p.1, v) else p)) = mapKeys m := by
  unfold mapKeys
  rw [List.map_map]
  apply List.map_congr_left
  intro p _
  by_cases h : p.1 = k <;> simp [Function.comp, h]

theorem mem_mapKeys_dictInsert (m : NameMap) (k : Val) (v : Nat) (k2 : Val) :
    k2 ∈ mapKeys (dictInsert m k v) ↔ k2 ∈ mapKeys m ∨ k2 = k := by
  unfold dictInsert
  split
  · next h =>
      rw [mapKeys_overwrite]
      have hk : k ∈ mapKeys m := (mapLookup_isSome_iff m k).1 h
      constructor
      · exact Or.inl
      · intro h2
        rcases h2 with h2 | rfl
        · exact h2
        · exact hk
  · next h =>
      unfold mapKeys
      simp

theorem mem_mapKeys_buildMap_aux (holes : List HoleRow) (acc : NameMap) (k : Val) :
    k ∈ mapKeys (holes.foldl (fun m h => dictInsert m h.name h.id) acc)
      ↔ k ∈ mapKeys acc ∨ k ∈ holes.map (fun h => h.name) := by
  induction holes generalizing acc with
  | nil => simp
  | cons h rest ih =>
      rw [List.foldl_cons, ih, mem_mapKeys_dictInsert]
      simp [or_assoc]

theorem mem_mapKeys_buildMap (holes : List HoleRow) (k : Val) :
    k ∈ mapKeys (buildMap holes) ↔ k ∈ holes.map (fun h => h.name) := by
  unfold buildMap
  rw [mem_mapKeys_buildMap_aux]
  simp [mapKeys]

theorem updateHole_map_name (holes : List HoleRow) (hid : Nat) (a : HoleAttrs) :
    (updateHole holes hid a).map (fun h => h.name) = holes.map (fun h => h.name) := by
  unfold updateHole
  rw [List.map_map]
  apply List.map_congr_left
  intro h _
  by_cases hh : h.id = hid <;> simp [Function.comp, hh]

theorem updateHole_map_id (holes : List HoleRow) (hid : Nat) (a : HoleAttrs) :
    (updateHole holes hid a).map (fun h => h.id) = holes.map (fun h => h.id) := by
  unfold updateHole
  rw [List.map_map]
  apply List.map_congr_left
  intro h _
  by_cases hh : h.id = hid <;> simp [Function.comp, hh]

theorem KeysNames_processHole (st : MergeSt) (row : RowData) (h : KeysNames st) :
    KeysNames (processHole st row) := by
  intro k
  cases hl : mapLookup st.map (rowVal row "ИМЯ") with
  | some hid =>
      simp only [processHole, hl]
      rw [updateHole_map_name]
      exact h k
  | none =>
      simp only [processHole, hl]
      unfold mapKeys
      simp only [List.map_append, List.mem_append]
      rw [show (st.map.map fun p => p.1) = mapKeys st.map from rfl, h k]
      simp

theorem KeysNames_processHoles (rows : List RowData) :
    ∀ st : MergeSt, KeysNames st → KeysNames (processHoles st rows) := by
  induction rows with
  | nil => exact fun st h => h
  | cons row rest ih =>
      intro st h
      exact ih (processHole st row) (KeysNames_processHole st row h)

theorem processHole_keys_mono (st : MergeSt) (row : RowData) (k : Val)
    (hk : k ∈ mapKeys st.map) : k ∈ mapKeys (processHole st row).map := by
  cases hl : mapLookup st.map (rowVal row "ИМЯ") with
  | some hid => simpa [processHole, hl] using hk
  | none =>
      simp only [processHole, hl]
      unfold mapKeys
      simp only [List.map_append, List.mem_append]
      exact Or.inl hk

theorem processHoles_keys_mono (rows : List RowData) :
    ∀ (st : MergeSt) (k : Val), k ∈ mapKeys st.map → k ∈ mapKeys (processHoles st rows).map := by
  induction rows with
  | nil => exact fun st k hk => hk
  | cons row rest ih =>
      intro st k hk
      exact ih (processHole st row) k (processHole_keys_mono st row k hk)

theorem processHole_keys_self (st : MergeSt) (row : RowData) :
    rowVal row "ИМЯ" ∈ mapKeys (processHole st row).map := by
  cases hl : mapLookup st.map (rowVal row "ИМЯ") with
  | some hid =>
      have : (mapLookup st.map (rowVal row "ИМЯ")).isSome = true := by rw [hl]; rfl
      simpa [processHole, hl] using (mapLookup_isSome_iff st.map (rowVal row "ИМЯ")).1 this
  | none =>
      simp only [processHole, hl]
      unfold mapKeys
      simp

theorem processHoles_keys_contain (rows : List RowData) :
    ∀ st : MergeSt, ∀ row2 ∈ rows, rowVal row2 "ИМЯ" ∈ mapKeys (processHoles st rows).map := by
  induction rows with
  | nil => intro st row2 h; cases h
  | cons row rest ih =>
      intro st row2 h
      rcases List.mem_cons.1 h with rfl | h2
      · exact processHoles_keys_mono rest (processHole st row2) _
          (processHole_keys_self st row2)
      · exact ih (processHole st row) row2 h2

theorem processHoles_all_update (rows : List RowData) :
    ∀ st : MergeSt, (∀ row2 ∈ rows, rowVal row2 "ИМЯ" ∈ mapKeys st.map) →
      (processHoles st rows).db.holes.length = st.db.holes.length
      ∧ (processHoles st rows).map = st.map := by
  induction rows with
  | nil => exact fun st _ => ⟨rfl, rfl⟩
  | cons row rest ih =>
      intro st h
      have hk : rowVal row "ИМЯ" ∈ mapKeys st.map := h row (List.mem_cons_self row rest)
      obtain ⟨hid, hl⟩ := Option.isSome_iff_exists.1 ((mapLookup_isSome_iff _ _).2 hk)
      have hstep : processHole st row
          = ⟨{ st.db with holes := updateHole st.db.holes hid (holeAttrsOfRow row) }, st.map⟩ := by
        simp [processHole, hl]
      have hrest := ih ⟨{ st.db with holes := updateHole st.db.holes hid (holeAttrsOfRow row) }, st.map⟩
        (fun row2 h2 => h row2 (List.mem_cons_of_mem row h2))
      refine ⟨?_, ?_⟩
      · show (processHoles (processHole st row) rest).db.holes.length = _
        rw [hstep]
        rw [hrest.1]
        simp [updateHole]
      · show (processHoles (processHole st row) rest).map = _
        rw [hstep, hrest.2]

theorem oalt_none {α : Type} (x : Option α) : oalt x none = x := by
  cases x <;> rfl

theorem oalt_assoc {α : Type} (x y z : Option α) :
    oalt (oalt x y) z = oalt x (oalt y z) := by
  cases x <;> cases y <;> rfl

theorem mapLookup_eq_none_of_not_mem (m : NameMap) (k : Val) (h : k ∉ mapKeys m) :
    mapLookup m k = none := by
  rcases hl : mapLookup m k with _ | i
  · rfl
  · exact absurd ((mapLookup_isSome_iff m k).1 (by rw [hl]; rfl)) h

theorem findByName_eq_none_iff (holes : List HoleRow) (n : Val) :
    findByName holes n = none ↔ n ∉ holes.map (fun h => h.name) := by
  induction holes with
  | nil => simp [findByName]
  | cons h rest ih =>
      by_cases hh : h.name = n
      · simp [findByName, hh]
      · have hh2 : ¬ n = h.name := fun e => hh e.symm
        simp [findByName, hh, hh2, ih]

theorem findByName_append (l1 l2 : List HoleRow) (n : Val) :
    findByName (l1 ++ l2) n = oalt (findByName l1 n) (findByName l2 n) := by
  induction l1 with
  | nil => simp [findByName, oalt]
  | cons h rest ih =>
      by_cases hh : h.name = n <;> simp [findByName, hh, ih, oalt]

theorem findByName_of_mem_nodup (holes : List HoleRow)
    (hnd : (holes.map (fun h => h.name)).Nodup) (h0 : HoleRow)
    (hmem : h0 ∈ holes) (nm : Val) (hname : h0.name = nm) :
    findByName holes nm = some h0 := by
  induction holes with
  | nil => cases hmem
  | cons h rest ih =>
      rcases List.mem_cons.1 hmem with rfl | hmem2
      · simp [findByName, hname]
      · rw [List.map_cons] at hnd
        have hnd2 := List.nodup_cons.1 hnd
        have hmm : h0.name ∈ rest.map (fun h2 => h2.name) :=
          List.mem_map_of_mem (fun h2 => h2.name) hmem2
        have hne : ¬ h.name = nm := by
          intro he
          rw [hname, ← he] at hmm
          exact hnd2.1 hmm
        simp only [findByName, if_neg hne]
        exact ih hnd2.2 hmem2

theorem findByName_updateHole_ne (holes : List HoleRow) (hid : Nat) (a : HoleAttrs) (n : Val)
    (hsafe : ∀ h ∈ holes, h.id = hid → ¬ h.name = n) :
    findByName (updateHole holes hid a) n = findByName holes n := by
  induction holes with
  | nil => rfl
  | cons h rest ih =>
      have hname : (if h.id = hid then { h with attrs := a } else h).name = h.name := by
        split <;> rfl
      by_cases hh : h.name = n
      · have hidne : ¬ h.id = hid := fun e => hsafe h (List.mem_cons_self h rest) e hh
        simp [updateHole, findByName, hidne, hh]
      · simp only [updateHole, List.map_cons, findByName, hname, if_neg hh]
        exact ih (fun h2 hm he => hsafe h2 (List.mem_cons_of_mem h hm) he)

theorem buildMap_aux_eq_pairs (holes : List HoleRow) :
    ∀ acc : NameMap, (∀ h ∈ holes, h.name ∉ mapKeys acc) →
      (holes.map (fun h => h.name)).Nodup →
      holes.foldl (fun m h => dictInsert m h.name h.id) acc
        = acc ++ holes.map (fun h => (h.name, h.id)) := by
  induction holes with
  | nil => intro acc _ _; simp
  | cons h rest ih =>
      intro acc hdisj hnd
      have hnone : mapLookup acc h.name = none :=
        mapLookup_eq_none_of_not_mem acc h.name (hdisj h (List.mem_cons_self h rest))
      have hstep : dictInsert acc h.name h.id = acc ++ [(h.name, h.id)] := by
        simp [dictInsert, hnone]
      rw [List.map_cons] at hnd
      have hnd2 := List.nodup_cons.1 hnd
      rw [List.foldl_cons, hstep, ih (acc ++ [(h.name, h.id)]) ?_ hnd2.2]
      · simp
      · intro h2 hm
        unfold mapKeys
        simp only [List.map_append, List.mem_append]
        rintro (hin | hin)
        · exact hdisj h2 (List.mem_cons_of_mem h hm) hin
        · have hmm : h2.name ∈ rest.map (fun h3 => h3.name) :=
            List.mem_map_of_mem (fun h3 => h3.name) hm
          have heq : h2.name = h.name := by simpa using hin
          rw [heq] at hmm
          exact hnd2.1 hmm

theorem buildMap_eq_pairs (holes : List HoleRow)
    (hnd : (holes.map (fun h => h.name)).Nodup) :
    buildMap holes = holes.map (fun h => (h.name, h.id)) := by
  unfold buildMap
  rw [buildMap_aux_eq_pairs holes [] (by intro h _; simp [mapKeys]) hnd]
  simp

theorem lookup_pairs_sound (holes : List HoleRow) (k : Val) (i : Nat) :
    mapLookup (holes.map (fun h => (h.name, h.id))) k = some i →
      ∃ h ∈ holes, h.id = i ∧ h.name = k := by
  induction holes with
  | nil => intro h; cases h
  | cons h rest ih =>
      intro hl
      simp only [List.map_cons, mapLookup] at hl
      by_cases hh : h.name = k
      · rw [if_pos hh] at hl
        exact ⟨h, List.mem_cons_self h rest, Option.some.inj hl, hh⟩
      · rw [if_neg hh] at hl
        obtain ⟨h2, hm, hrest⟩ := ih hl
        exact ⟨h2, List.mem_cons_of_mem h hm, hrest⟩

theorem not_mem_names_of_lookup_none (st : MergeSt) (hkn : KeysNames st) (k : Val)
    (hl : mapLookup st.map k = none) : k ∉ st.db.holes.map (fun h => h.name) := by
  intro hmem
  have hs := (mapLookup_isSome_iff st.map k).2 ((hkn k).2 hmem)
  rw [hl] at hs
  cases hs

theorem attrsOf_processHole (st : MergeSt) (row : RowData) (wf : MergeWF st) (n : Val) :
    attrsOf (processHole st row).db n
      = if rowVal row "ИМЯ" = n then some (holeAttrsOfRow row) else attrsOf st.db n := by
  cases hl : mapLookup st.map (rowVal row "ИМЯ") with
  | none =>
      have hfnone : findByName st.db.holes (rowVal row "ИМЯ") = none :=
        (findByName_eq_none_iff _ _).2
          (not_mem_names_of_lookup_none st wf.keys_names _ hl)
      simp only [processHole, hl]
      unfold attrsOf
      rw [findByName_append]
      by_cases hn : rowVal row "ИМЯ" = n
      · rw [← hn]
        simp [hfnone, findByName, oalt]
      · have hsingle :
            findByName [⟨st.db.nextHoleId, rowVal row "ИМЯ", holeAttrsOfRow row⟩] n
              = none := by
          simp [findByName, hn]
        rw [hsingle, oalt_none, if_neg hn]
  | some hid =>
      obtain ⟨h0, h0mem, h0id, h0name⟩ := wf.lookup_sound _ _ hl
      simp only [processHole, hl]
      unfold attrsOf
      by_cases hn : rowVal row "ИМЯ" = n
      · have hmem2 : ({ h0 with attrs := holeAttrsOfRow row } : HoleRow)
            ∈ updateHole st.db.holes hid (holeAttrsOfRow row) := by
          unfold updateHole
          have hf : (fun h => if h.id = hid then { h with attrs := holeAttrsOfRow row } else h) h0
              = { h0 with attrs := holeAttrsOfRow row } := by
            show (if h0.id = hid then { h0 with attrs := holeAttrsOfRow row } else h0)
              = { h0 with attrs := holeAttrsOfRow row }
            rw [if_pos h0id]
          rw [← hf]
          exact List.mem_map_of_mem _ h0mem
        have hnd : ((updateHole st.db.holes hid (holeAttrsOfRow row)).map
            (fun h => h.name)).Nodup := by
          rw [updateHole_map_name]
          exact wf.names_nodup
        rw [findByName_of_mem_nodup _ hnd _ hmem2 n (h0name.trans hn), if_pos hn]
        rfl
      · have hsafe : ∀ h ∈ st.db.holes, h.id = hid → ¬ h.name = n := by
          intro h hm hi
          have heq : h = h0 :=
            List.inj_on_of_nodup_map wf.ids_nodup hm h0mem (by rw [hi, h0id])
          rw [heq, h0name]
          exact fun e => hn e
        rw [findByName_updateHole_ne _ _ _ _ hsafe, if_neg hn]

theorem MergeWF_processHole (st : MergeSt) (row : RowData) (wf : MergeWF st) :
    MergeWF (processHole st row) := by
  cases hl : mapLookup st.map (rowVal row "ИМЯ") with
  | some hid =>
      simp only [processHole, hl]
      refine ⟨?_, ?_, ?_, ?_, ?_⟩
      · show ((updateHole st.db.holes hid (holeAttrsOfRow row)).map (fun h => h.name)).Nodup
        rw [updateHole_map_name]
        exact wf.names_nodup
      · show ((updateHole st.db.holes hid (holeAttrsOfRow row)).map (fun h => h.id)).Nodup
        rw [updateHole_map_id]
        exact wf.ids_nodup
      · intro h hm
        obtain ⟨h2, hm2, rfl⟩ := List.mem_map.1 hm
        have hids : (if h2.id = hid then { h2 with attrs := holeAttrsOfRow row } else h2).id
            = h2.id := by
          split <;> rfl
        show _ < st.db.nextHoleId
        rw [hids]
        exact wf.ids_lt h2 hm2
      · intro k
        show k ∈ mapKeys st.map
          ↔ k ∈ (updateHole st.db.holes hid (holeAttrsOfRow row)).map (fun h => h.name)
        rw [updateHole_map_name]
        exact wf.keys_names k
      · intro k i hlk
        obtain ⟨h2, hm2, hi, hnm⟩ := wf.lookup_sound k i hlk
        refine ⟨if h2.id = hid then { h2 with attrs := holeAttrsOfRow row } else h2,
          List.mem_map_of_mem _ hm2, ?_, ?_⟩
        · split <;> simpa using hi
        · split <;> simpa using hnm
  | none =>
      have hnotmem := not_mem_names_of_lookup_none st wf.keys_names _ hl
      simp only [processHole, hl]
      refine ⟨?_, ?_, ?_, ?_, ?_⟩
      · show ((st.db.holes
            ++ [(⟨st.db.nextHoleId, rowVal row "ИМЯ", holeAttrsOfRow row⟩ : HoleRow)]).map
              (fun h => h.name)).Nodup
        rw [List.map_append]
        simp only [List.nodup_append, List.map_cons, List.map_nil]
        refine ⟨wf.names_nodup, List.nodup_singleton _, ?_⟩
        intro a ha hb
        have : a = rowVal row "ИМЯ" := by simpa using hb
        rw [this] at ha
        exact hnotmem ha
      · show ((st.db.holes
            ++ [(⟨st.db.nextHoleId, rowVal row "ИМЯ", holeAttrsOfRow row⟩ : HoleRow)]).map
              (fun h => h.id)).Nodup
        rw [List.map_append]
        simp only [List.nodup_append, List.map_cons, List.map_nil]
        refine ⟨wf.ids_nodup, List.nodup_singleton _, ?_⟩
        intro a ha hb
        have ha2 : a = st.db.nextHoleId := by simpa using hb
        obtain ⟨h2, hm2, hid2⟩ := List.mem_map.1 ha
        have := wf.ids_lt h2 hm2
        rw [hid2, ha2] at this
        exact Nat.lt_irrefl _ this
      · intro h hm
        show h.id < st.db.nextHoleId + 1
        rcases List.mem_append.1 hm with hm2 | hm2
        · exact Nat.lt_succ_of_lt (wf.ids_lt h hm2)
        · have : h = ⟨st.db.nextHoleId, rowVal row "ИМЯ", holeAttrsOfRow row⟩ := by
            simpa using hm2
          rw [this]
          exact Nat.lt_succ_self _
      · intro k
        show k ∈ mapKeys (st.map ++ [(rowVal row "ИМЯ", st.db.nextHoleId)])
          ↔ k ∈ (st.db.holes
              ++ [(⟨st.db.nextHoleId, rowVal row "ИМЯ", holeAttrsOfRow row⟩ : HoleRow)]).map
                (fun h => h.name)
        unfold mapKeys
        simp only [List.map_append, List.mem_append]
        rw [show (st.map.map fun p => p.1) = mapKeys st.map from rfl, wf.keys_names k]
        simp
      · intro k i hlk
        rw [mapLookup_append] at hlk
        cases hcase : mapLookup st.map k with
        | some j =>
            rw [hcase] at hlk
            have hij : j = i := Option.some.inj hlk
            obtain ⟨h2, hm2, hi, hnm⟩ := wf.lookup_sound k j hcase
            exact ⟨h2, List.mem_append_left _ hm2, hij ▸ hi, hnm⟩
        | none =>
            rw [hcase] at hlk
            by_cases hk : rowVal row "ИМЯ" = k
            · have : some st.db.nextHoleId = some i := by
                simpa [mapLookup, oalt, hk] using hlk
              refine ⟨⟨st.db.nextHoleId, rowVal row "ИМЯ", holeAttrsOfRow row⟩,
                List.mem_append_right _ (List.mem_cons_self _ _),
                (Option.some.inj this), hk⟩
            · exact absurd hlk (by simp [mapLookup, oalt, hk])

theorem MergeWF_processHoles (rows : List RowData) :
    ∀ st : MergeSt, MergeWF st → MergeWF (processHoles st rows) := by
  induction rows with
  | nil => exact fun st wf => wf
  | cons row rest ih =>
      intro st wf
      exact ih (processHole st row) (MergeWF_processHole st row wf)

theorem attrsOf_processHoles (rows : List RowData) :
    ∀ st : MergeSt, MergeWF st → ∀ n : Val,
      attrsOf (processHoles st rows).db n = oalt (lastAttrs rows n) (attrsOf st.db n) := by
  induction rows with
  | nil => intro st _ n; rfl
  | cons row rest ih =>
      intro st wf n
      have hstep := attrsOf_processHole st row wf n
      have h2 := ih (processHole st row) (MergeWF_processHole st row wf) n
      show attrsOf (processHoles (processHole st row) rest).db n = _
      rw [h2, hstep]
      simp only [lastAttrs]
      rw [oalt_assoc]
      by_cases hn : rowVal row "ИМЯ" = n <;> simp [hn, oalt]

theorem lastAttrs_perm {rows1 rows2 : List RowData} (hp : rows1.Perm rows2) :
    (rows1.map (fun row => rowVal row "ИМЯ")).Nodup →
      ∀ n : Val, lastAttrs rows1 n = lastAttrs rows2 n := by
  induction hp with
  | nil => exact fun _ _ => rfl
  | cons x p ih =>
      intro hnd n
      rw [List.map_cons] at hnd
      have hnd2 := List.nodup_cons.1 hnd
      simp only [lastAttrs]
      rw [ih hnd2.2 n]
  | swap x y l =>
      intro hnd n
      rw [List.map_cons, List.map_cons] at hnd
      have h1 := List.nodup_cons.1 hnd
      have hxy : ¬ rowVal y "ИМЯ" = rowVal x "ИМЯ" := by
        intro he
        exact h1.1 (by rw [he]; exact List.mem_cons_self _ _)
      simp only [lastAttrs]
      cases hl : lastAttrs l n
      · by_cases hx : rowVal x "ИМЯ" = n <;> by_cases hy : rowVal y "ИМЯ" = n
        · exact absurd (hy.trans hx.symm) hxy
        · simp [oalt, hx, hy]
        · simp [oalt, hx, hy]
        · simp [oalt, hx, hy]
      · simp [oalt]
  | trans p1 p2 ih1 ih2 =>
      intro hnd n
      rw [ih1 hnd n, ih2 ((p1.map (fun row => rowVal row "ИМЯ")).nodup hnd) n]

/-! ### Claim theorems -/

/-- C3: each holes-sheet row either updates the existing record of its
name in place (all attributes overwritten, row count unchanged, map
unchanged) or inserts a new record with the generated identity and
extends the name→identity map immediately, so later lookups of the name
resolve. -/
theorem claim3_hole_upsert_step (st : MergeSt) (row : RowData) :
    (∀ hid, mapLookup st.map (rowVal row "ИМЯ") = some hid →
      processHole st row
          = ⟨{ st.db with holes := updateHole st.db.holes hid (holeAttrsOfRow row) }, st.map⟩
        ∧ (updateHole st.db.holes hid (holeAttrsOfRow row)).length = st.db.holes.length)
    ∧ (mapLookup st.map (rowVal row "ИМЯ") = none →
      processHole st row
          = ⟨{ st.db with
                holes := st.db.holes
                  ++ [⟨st.db.nextHoleId, rowVal row "ИМЯ", holeAttrsOfRow row⟩],
                nextHoleId := st.db.nextHoleId + 1 },
              st.map ++ [(rowVal row "ИМЯ", st.db.nextHoleId)]⟩
        ∧ mapLookup (st.map ++ [(rowVal row "ИМЯ", st.db.nextHoleId)]) (rowVal row "ИМЯ")
            = some st.db.nextHoleId) := by
  constructor
  · intro hid h
    exact ⟨by simp [processHole, h], by simp [updateHole]⟩
  · intro h
    refine ⟨by simp [processHole, h], ?_⟩
    rw [mapLookup_append, h]
    simp [mapLookup, oalt]

/-- C3 witness: inserting hole A into an empty store extends the map. -/
theorem claim3_hole_upsert_step_witness :
    mapLookup ([] : NameMap) (rowVal (holeRowOf "A") "ИМЯ") = none
    ∧ (processHole ⟨dbEmpty, []⟩ (holeRowOf "A")
          = ⟨{ dbEmpty with
                holes := dbEmpty.holes
                  ++ [⟨dbEmpty.nextHoleId, rowVal (holeRowOf "A") "ИМЯ",
                        holeAttrsOfRow (holeRowOf "A")⟩],
                nextHoleId := dbEmpty.nextHoleId + 1 },
              [] ++ [(rowVal (holeRowOf "A") "ИМЯ", dbEmpty.nextHoleId)]⟩
        ∧ mapLookup ([] ++ [(rowVal (holeRowOf "A") "ИМЯ", dbEmpty.nextHoleId)])
              (rowVal (holeRowOf "A") "ИМЯ")
            = some dbEmpty.nextHoleId) :=
  ⟨by decide, (claim3_hole_upsert_step ⟨dbEmpty, []⟩ (holeRowOf "A")).2 (by decide)⟩

/-- C4: an assay row whose hole name does not resolve appends exactly
one diagnostic carrying the name and the 0-based row index plus 2, and
leaves the store untouched; a resolved row is inserted immediately; the
loop then continues with the remaining rows, which are enumerated from
index 0. -/
theorem claim4_assay_row_diagnostic (m : NameMap) (db : DB) (errs : List Diag)
    (idx : Nat) (row : RowData) (rest : List (Nat × RowData)) (rows : List RowData) :
    (mapLookup m (rowVal row "ОБЪЕКТ") = none →
      processAssayRow m (db, errs) (idx, row)
        = (db, errs ++ [Diag.unknownHole (rowVal row "ОБЪЕКТ") (idx + 2)]))
    ∧ (∀ hid, mapLookup m (rowVal row "ОБЪЕКТ") = some hid →
      processAssayRow m (db, errs) (idx, row) = (insertAssay db hid row, errs))
    ∧ List.foldl (processAssayRow m) (db, errs) ((idx, row) :: rest)
        = List.foldl (processAssayRow m) (processAssayRow m (db, errs) (idx, row)) rest
    ∧ processAssays m db rows = rows.enum.foldl (processAssayRow m) (db, []) := by
  refine ⟨fun h => ?_, fun hid h => ?_, rfl, rfl⟩
  · simp [processAssayRow, h]
  · simp [processAssayRow, h]

/-- C4 witness: the assay row referencing the unknown hole B at index 0
yields the single diagnostic with row number 2. -/
theorem claim4_assay_row_diagnostic_witness :
    mapLookup ([] : NameMap) (rowVal (assayRowOf "B") "ОБЪЕКТ") = none
    ∧ processAssayRow [] (dbEmpty, []) (0, assayRowOf "B")
        = (dbEmpty, [] ++ [Diag.unknownHole (rowVal (assayRowOf "B") "ОБЪЕКТ") (0 + 2)]) :=
  ⟨by decide, (claim4_assay_row_diagnostic [] dbEmpty [] 0 (assayRowOf "B") [] []).1 (by decide)⟩

/-- C5: the column-presence check accumulates one diagnostic naming each
required column missing from the holes sheet or the assay sheet (both
sheets inspected), and when any is missing, validation returns exactly
these diagnostics and never a null-values diagnostic. -/
theorem claim5_column_check_complete (holesSheet assaySheet : Sheet) :
    (∀ c ∈ holesCols, c ∉ holesSheet.columns →
      Diag.missingColumn c "Holes" ∈ columnErrors holesSheet assaySheet)
    ∧ (∀ c ∈ assayCols, c ∉ assaySheet.columns →
      Diag.missingColumn c "Assay" ∈ columnErrors holesSheet assaySheet)
    ∧ (columnErrors holesSheet assaySheet).length
        = (missingCols holesCols holesSheet).length + (missingCols assayCols assaySheet).length
    ∧ (columnErrors holesSheet assaySheet ≠ [] →
        validate holesSheet assaySheet = columnErrors holesSheet assaySheet
        ∧ ∀ s, Diag.nullValues s ∉ validate holesSheet assaySheet) := by
  refine ⟨?_, ?_, ?_, ?_⟩
  · intro c hc hnc
    simp only [columnErrors, List.mem_append, List.mem_map, missingCols, List.mem_filter]
    exact Or.inl ⟨c, ⟨hc, by simp [hnc]⟩, rfl⟩
  · intro c hc hnc
    simp only [columnErrors, List.mem_append, List.mem_map, missingCols, List.mem_filter]
    exact Or.inr ⟨c, ⟨hc, by simp [hnc]⟩, rfl⟩
  · simp [columnErrors]
  · intro h
    have hv : validate holesSheet assaySheet = columnErrors holesSheet assaySheet := by
      simp [validate, h]
    refine ⟨hv, fun s => ?_⟩
    rw [hv]
    simp [columnErrors]

/-- C5 witness: a workbook missing X on Holes and Au on Assay yields a
diagnostic for each, two in total. -/
theorem claim5_column_check_complete_witness :
    ("X" ∈ holesCols ∧ "X" ∉ holesSheetNoX.columns
      ∧ "Au" ∈ assayCols ∧ "Au" ∉ assaySheetNoAu.columns)
    ∧ Diag.missingColumn "X" "Holes" ∈ columnErrors holesSheetNoX assaySheetNoAu
    ∧ Diag.missingColumn "Au" "Assay" ∈ columnErrors holesSheetNoX assaySheetNoAu
    ∧ (columnErrors holesSheetNoX assaySheetNoAu).length = 2 :=
  ⟨by decide,
    (claim5_column_check_complete holesSheetNoX assaySheetNoAu).1 "X" (by decide) (by decide),
    (claim5_column_check_complete holesSheetNoX assaySheetNoAu).2.1 "Au" (by decide) (by decide),
    by decide⟩

/-- C6: when all required columns are present, the null-value check
produces at most one diagnostic per sheet, exactly one for each sheet
that has a null cell in a required column (two when both do), and any
null rejects the batch. -/
theorem claim6_null_check_sheet_granularity (holesSheet assaySheet : Sheet)
    (hce : columnErrors holesSheet assaySheet = []) :
    validate holesSheet assaySheet
      = (if sheetHasNull holesCols holesSheet then [Diag.nullValues "Holes"] else [])
        ++ (if sheetHasNull assayCols assaySheet then [Diag.nullValues "Assay"] else [])
    ∧ (sheetHasNull holesCols holesSheet = true → sheetHasNull assayCols assaySheet = true →
        validate holesSheet assaySheet = [Diag.nullValues "Holes", Diag.nullValues "Assay"])
    ∧ ((sheetHasNull holesCols holesSheet = true ∨ sheetHasNull assayCols assaySheet = true) →
        validate holesSheet assaySheet ≠ []) := by
  have hv : validate holesSheet assaySheet = nullErrors holesSheet assaySheet := by
    simp [validate, hce]
  refine ⟨by rw [hv]; rfl, fun h1 h2 => by simp [hv, nullErrors, h1, h2], fun h => ?_⟩
  rcases h with h | h <;> simp [hv, nullErrors, h]

/-- C6 witness: nulls on both sheets give exactly the two sheet-level
diagnostics. -/
theorem claim6_null_check_sheet_granularity_witness :
    columnErrors holesSheetNull assaySheetNull = []
    ∧ validate holesSheetNull assaySheetNull
        = [Diag.nullValues "Holes", Diag.nullValues "Assay"] :=
  ⟨by decide,
    (claim6_null_check_sheet_granularity holesSheetNull assaySheetNull (by decide)).2.1
      (by decide) (by decide)⟩

/-- C1: when the merge pass accumulates any diagnostic, the call returns
failure with exactly those diagnostics, the transaction is rolled back
so the returned store is the input store, and both row counts are
unchanged. -/
theorem claim1_merge_diagnostics_rollback (excel_path db_path : String) (w : Workbook) (db : DB)
    (hms : missingSheets w = [])
    (hv : validate (parseSheet (getSheet w "Holes")) (parseSheet (getSheet w "Assay")) = [])
    (hme : mergeErrors db (parseSheet (getSheet w "Holes")) (parseSheet (getSheet w "Assay")) ≠ []) :
    import_excel_to_db excel_path db_path (some w) (some db)
      = ⟨false,
          mergeErrors db (parseSheet (getSheet w "Holes")) (parseSheet (getSheet w "Assay")),
          some db, [Ev.openWbScoped, Ev.closeWb, Ev.openWbBare, Ev.openConn, Ev.closeConn]⟩
    ∧ ((import_excel_to_db excel_path db_path (some w) (some db)).store.map
          (fun d => d.holes.length) = some db.holes.length)
    ∧ ((import_excel_to_db excel_path db_path (some w) (some db)).store.map
          (fun d => d.assay.length) = some db.assay.length) := by
  have hmp := mergePhase_rollback db _ _ hme
  have heq : import_excel_to_db excel_path db_path (some w) (some db)
      = ⟨false,
          mergeErrors db (parseSheet (getSheet w "Holes")) (parseSheet (getSheet w "Assay")),
          some db, [Ev.openWbScoped, Ev.closeWb, Ev.openWbBare, Ev.openConn, Ev.closeConn]⟩ := by
    simp [import_excel_to_db, hms, hv, hmp]
  exact ⟨heq, by rw [heq]; rfl, by rw [heq]; rfl⟩

/-- C1 witness: the workbook whose assay row references the unknown hole
B rolls the empty store back unchanged. -/
theorem claim1_merge_diagnostics_rollback_witness :
    (missingSheets wbBad = []
      ∧ validate (parseSheet (getSheet wbBad "Holes")) (parseSheet (getSheet wbBad "Assay")) = []
      ∧ mergeErrors dbEmpty (parseSheet (getSheet wbBad "Holes"))
          (parseSheet (getSheet wbBad "Assay")) ≠ [])
    ∧ import_excel_to_db "journal.xlsx" "database" (some wbBad) (some dbEmpty)
        = ⟨false,
            mergeErrors dbEmpty (parseSheet (getSheet wbBad "Holes"))
              (parseSheet (getSheet wbBad "Assay")),
            some dbEmpty,
            [Ev.openWbScoped, Ev.closeWb, Ev.openWbBare, Ev.openConn, Ev.closeConn]⟩ :=
  ⟨⟨by decide, by decide, by decide⟩,
    (claim1_merge_diagnostics_rollback "journal.xlsx" "database" wbBad dbEmpty
        (by decide) (by decide) (by decide)).1⟩

/-- C2: on any failure before the merge pass (missing sheet, or any
validation diagnostic), the call returns failure with a nonempty
diagnostic list, the store value is untouched, and no store connection
event occurs. -/
theorem claim2_validation_failure_no_store_touch (excel_path db_path : String)
    (w : Workbook) (store : Option DB)
    (h : missingSheets w ≠ []
      ∨ validate (parseSheet (getSheet w "Holes")) (parseSheet (getSheet w "Assay")) ≠ []) :
    (import_excel_to_db excel_path db_path (some w) store).success = false
    ∧ (import_excel_to_db excel_path db_path (some w) store).errors ≠ []
    ∧ (import_excel_to_db excel_path db_path (some w) store).store = store
    ∧ Ev.openConn ∉ (import_excel_to_db excel_path db_path (some w) store).trace := by
  by_cases hms : missingSheets w = []
  · have hv := h.resolve_left (by simp [hms])
    cases store with
    | none => simp [import_excel_to_db, hms]
    | some db => simp [import_excel_to_db, hms, hv]
  · simp [import_excel_to_db, hms]

/-- C2 witness: a workbook lacking the Assay sheet fails without any
store-connection event and leaves the store untouched. -/
theorem claim2_validation_failure_no_store_touch_witness :
    missingSheets wbNoAssay ≠ []
    ∧ ((import_excel_to_db "journal.xlsx" "database" (some wbNoAssay) (some dbEmpty)).success = false
      ∧ (import_excel_to_db "journal.xlsx" "database" (some wbNoAssay) (some dbEmpty)).errors ≠ []
      ∧ (import_excel_to_db "journal.xlsx" "database" (some wbNoAssay) (some dbEmpty)).store
          = some dbEmpty
      ∧ Ev.openConn
          ∉ (import_excel_to_db "journal.xlsx" "database" (some wbNoAssay) (some dbEmpty)).trace) :=
  ⟨by decide,
    claim2_validation_failure_no_store_touch "journal.xlsx" "database" wbNoAssay (some dbEmpty)
      (Or.inl (by decide))⟩

/-- C10: when the workbook reads fine (both required sheets present) but
the database path names no existing file, the call returns failure with
the single diagnostic naming the database path, no store value is ever
created, and no store connection event occurs. -/
theorem claim10_db_missing_refused (excel_path db_path : String) (w : Workbook)
    (h : missingSheets w = []) :
    import_excel_to_db excel_path db_path (some w) none
      = ⟨false, [Diag.dbNotFound db_path], none, [Ev.openWbScoped, Ev.closeWb]⟩
    ∧ Ev.openConn ∉ (import_excel_to_db excel_path db_path (some w) none).trace := by
  have heq : import_excel_to_db excel_path db_path (some w) none
      = ⟨false, [Diag.dbNotFound db_path], none, [Ev.openWbScoped, Ev.closeWb]⟩ := by
    simp [import_excel_to_db, h]
  exact ⟨heq, by rw [heq]; simp⟩

/-- C10 witness: a readable workbook with a missing database file. -/
theorem claim10_db_missing_refused_witness :
    missingSheets wbGood = []
    ∧ (import_excel_to_db "journal.xlsx" "no-such-file" (some wbGood) none
        = ⟨false, [Diag.dbNotFound "no-such-file"], none, [Ev.openWbScoped, Ev.closeWb]⟩
      ∧ Ev.openConn
          ∉ (import_excel_to_db "journal.xlsx" "no-such-file" (some wbGood) none).trace) :=
  ⟨by decide, claim10_db_missing_refused "journal.xlsx" "no-such-file" wbGood (by decide)⟩

/-- C7: re-importing the same holes sheet against the store it produced
finds every sheet name already present in the reloaded name→identity
map, so the second pass only updates in place and the holes row count is
unchanged. -/
theorem claim7_reimport_no_duplicates (db : DB) (rows : List RowData) :
    (∀ row2 ∈ rows,
      (mapLookup (buildMap (mergeHolesOnly db rows).holes) (rowVal row2 "ИМЯ")).isSome = true)
    ∧ (mergeHolesOnly (mergeHolesOnly db rows) rows).holes.length
        = (mergeHolesOnly db rows).holes.length := by
  have hkn0 : KeysNames ⟨db, buildMap db.holes⟩ := fun k => mem_mapKeys_buildMap db.holes k
  have hkn1 : KeysNames (processHoles ⟨db, buildMap db.holes⟩ rows) :=
    KeysNames_processHoles rows ⟨db, buildMap db.holes⟩ hkn0
  have hkeys1 : ∀ row2 ∈ rows,
      rowVal row2 "ИМЯ" ∈ mapKeys (buildMap (mergeHolesOnly db rows).holes) := by
    intro row2 hr
    refine (mem_mapKeys_buildMap _ _).2 ?_
    exact (hkn1 _).1 (processHoles_keys_contain rows ⟨db, buildMap db.holes⟩ row2 hr)
  refine ⟨fun row2 hr => (mapLookup_isSome_iff _ _).2 (hkeys1 row2 hr), ?_⟩
  exact (processHoles_all_update rows
    ⟨mergeHolesOnly db rows, buildMap (mergeHolesOnly db rows).holes⟩ hkeys1).1

/-- C7 witness: re-importing the one-hole sheet into the store it built
leaves the holes count unchanged, with the name already mapped. -/
theorem claim7_reimport_no_duplicates_witness :
    holeRowOf "A" ∈ [holeRowOf "A"]
    ∧ (mapLookup (buildMap (mergeHolesOnly dbEmpty [holeRowOf "A"]).holes)
        (rowVal (holeRowOf "A") "ИМЯ")).isSome = true
    ∧ (mergeHolesOnly (mergeHolesOnly dbEmpty [holeRowOf "A"]) [holeRowOf "A"]).holes.length
        = (mergeHolesOnly dbEmpty [holeRowOf "A"]).holes.length :=
  ⟨by decide,
    (claim7_reimport_no_duplicates dbEmpty [holeRowOf "A"]).1 (holeRowOf "A") (by decide),
    (claim7_reimport_no_duplicates dbEmpty [holeRowOf "A"]).2⟩

/-- C8 counterexample: the same two hole rows in the two orders produce
different stores — the generated identity of hole A is 1 in one order
and 2 in the other — so the result of the import is not literally
identical under reordering. -/
theorem claim8_counterexample :
    ([holeRowOf "A", holeRowOf2 "B"] : List RowData).Perm [holeRowOf2 "B", holeRowOf "A"]
    ∧ mergeHolesOnly dbEmpty [holeRowOf "A", holeRowOf2 "B"]
        ≠ mergeHolesOnly dbEmpty [holeRowOf2 "B", holeRowOf "A"]
    ∧ ((findByName (mergeHolesOnly dbEmpty [holeRowOf "A", holeRowOf2 "B"]).holes
          (Val.str "A")).map (fun h => h.id) = some 1)
    ∧ ((findByName (mergeHolesOnly dbEmpty [holeRowOf2 "B", holeRowOf "A"]).holes
          (Val.str "A")).map (fun h => h.id) = some 2) :=
  ⟨List.Perm.swap (holeRowOf2 "B") (holeRowOf "A") [], by decide, by decide, by decide⟩

/-- C8 (amended): for a well-formed store, any reordering of a holes
sheet with pairwise-distinct names yields the same name→attributes
content of the holes table (only the generated identities depend on the
order), and in general the attributes recorded for a name are those of
the last sheet row carrying it, falling back to the stored ones. -/
theorem claim8_order_independent_content (db : DB) (rows1 rows2 : List RowData)
    (hp : rows1.Perm rows2)
    (hnd : (rows1.map (fun row => rowVal row "ИМЯ")).Nodup)
    (h1 : (db.holes.map (fun h => h.name)).Nodup)
    (h2 : (db.holes.map (fun h => h.id)).Nodup)
    (h3 : ∀ h ∈ db.holes, h.id < db.nextHoleId)
    (n : Val) :
    attrsOf (mergeHolesOnly db rows1) n = attrsOf (mergeHolesOnly db rows2) n
    ∧ attrsOf (mergeHolesOnly db rows1) n = oalt (lastAttrs rows1 n) (attrsOf db n) := by
  have wf : MergeWF ⟨db, buildMap db.holes⟩ := by
    refine ⟨h1, h2, h3, fun k => mem_mapKeys_buildMap db.holes k, ?_⟩
    intro k i hlk
    rw [buildMap_eq_pairs db.holes h1] at hlk
    exact lookup_pairs_sound db.holes k i hlk
  have hchar1 := attrsOf_processHoles rows1 ⟨db, buildMap db.holes⟩ wf n
  have hchar2 := attrsOf_processHoles rows2 ⟨db, buildMap db.holes⟩ wf n
  refine ⟨?_, hchar1⟩
  rw [show mergeHolesOnly db rows1 = (processHoles ⟨db, buildMap db.holes⟩ rows1).db from rfl,
    show mergeHolesOnly db rows2 = (processHoles ⟨db, buildMap db.holes⟩ rows2).db from rfl,
    hchar1, hchar2, lastAttrs_perm hp hnd n]

/-- C8 witness: the two orders of the duplicate-free two-row sheet give
hole A the same attributes. -/
theorem claim8_order_independent_content_witness :
    (([holeRowOf "A", holeRowOf2 "B"] : List RowData).Perm [holeRowOf2 "B", holeRowOf "A"]
      ∧ (([holeRowOf "A", holeRowOf2 "B"] : List RowData).map
          (fun row => rowVal row "ИМЯ")).Nodup)
    ∧ attrsOf (mergeHolesOnly dbEmpty [holeRowOf "A", holeRowOf2 "B"]) (Val.str "A")
        = attrsOf (mergeHolesOnly dbEmpty [holeRowOf2 "B", holeRowOf "A"]) (Val.str "A") :=
  ⟨⟨List.Perm.swap (holeRowOf2 "B") (holeRowOf "A") [], by decide⟩,
    (claim8_order_independent_content dbEmpty [holeRowOf "A", holeRowOf2 "B"]
        [holeRowOf2 "B", holeRowOf "A"]
        (List.Perm.swap (holeRowOf2 "B") (holeRowOf "A") [])
        (by decide) (by decide) (by decide) (by decide) (Val.str "A")).1⟩

/-- C9: on a fully successful run the workbook is opened twice (the
with-scoped open of line 52 and the bare re-open of line 73) but closed
only once: the second handle has no releasing scope on this exit path,
contradicting the claim that every open is scoped with guaranteed
release. -/
theorem claim9_second_open_never_closed :
    (import_excel_to_db "journal.xlsx" "database" (some wbGood) (some dbEmpty)).success = true
    ∧ (import_excel_to_db "journal.xlsx" "database" (some wbGood) (some dbEmpty)).trace
        = [Ev.openWbScoped, Ev.closeWb, Ev.openWbBare, Ev.openConn, Ev.closeConn]
    ∧ (import_excel_to_db "journal.xlsx" "database" (some wbGood) (some dbEmpty)).trace.countP
        (fun e => decide (e = Ev.openWbScoped) || decide (e = Ev.openWbBare)) = 2
    ∧ (import_excel_to_db "journal.xlsx" "database" (some wbGood) (some dbEmpty)).trace.countP
        (fun e => decide (e = Ev.closeWb)) = 1 := by
  decide

end DrillImport
